import Mathlib

/-!
Verification development for the BTAS CP-ALS decomposition engine.

The C++ sources modelled here are:
* btas/generic/khatri_rao_product.h  (khatri_rao_product)
* btas/generic/cp_als.h              (CP_ALS: compute_PALS, build, ALS, direct)
* btas/generic/cp_df_als.h           (CP_DF_ALS: constructors, compute_PALS, build, ALS, direct)
* btas/generic/linear_algebra.h      (Inverse_Matrix, pseudoInverse)

A btas::Tensor used by this code is a dense row-major buffer together with a
box range; every tensor this development touches is used as a matrix
(rank 2) or as a weight vector (rank 1, modelled as a column), so the
embedding stores the two extents and the flat row-major data list.
External LAPACK/BLAS kernels (dgetrf, dgetri, dgesvd, dsyev) are not part of
the repository; where a claim depends on them they enter the model as
explicit function parameters, while everything the repository itself
computes is translated directly from the source.
-/

namespace btas

/-- Dense row-major rank-2 btas::Tensor (also used for rank-1 weight vectors,
stored as a single column). `data` is the flat storage in row-major order,
matching the pointer walks in the source. -/
structure Tensor (α : Type) where
  rows : Nat
  cols : Nat
  data : List α
deriving DecidableEq

instance {α : Type} : Inhabited (Tensor α) := ⟨⟨0, 0, []⟩⟩

/-- Element access `A(i, j)` through the row-major flat buffer, as the source
does with `A.data() + i * A.extent(1) + j`. Out-of-range reads give 0 (the
source would read past the buffer; all theorems only use in-range indices). -/
def Tensor.entry {α : Type} [Zero α] (A : Tensor α) (i j : Nat) : α :=
  A.data.getD (i * A.cols + j) 0

/-- Shape (extent pair) of a tensor. -/
def Tensor.shape {α : Type} (A : Tensor α) : Nat × Nat := (A.rows, A.cols)

/-- Shapes of a list of factor matrices. -/
def shapes {α : Type} (S : List (Tensor α)) : List (Nat × Nat) := S.map Tensor.shape

/-- Length of a flatMap over `List.range n` whose pieces all have length L. -/
lemma length_flatMap_range {α : Type} (f : Nat → List α) (L : Nat) :
    ∀ n, (∀ i, i < n → (f i).length = L) → ((List.range n).flatMap f).length = n * L := by
  intro n
  induction n with
  | zero => intro _; simp
  | succ m ih =>
    intro h
    rw [List.range_succ, List.flatMap_append, List.length_append,
      ih (fun i hi => h i (Nat.lt_succ_of_lt hi))]
    simp [h m (Nat.lt_succ_self m), Nat.succ_mul]

/-- Indexing a flatMap over `List.range n` with constant piece length L:
position `q * L + r` lands in piece q at offset r. -/
lemma getD_flatMap_range {α : Type} (f : Nat → List α) (L : Nat) (d : α) :
    ∀ n q r, q < n → r < L → (∀ i, i < n → (f i).length = L) →
      ((List.range n).flatMap f).getD (q * L + r) d = (f q).getD r d := by
  intro n
  induction n with
  | zero => intro q r hq _ _; exact absurd hq (Nat.not_lt_zero q)
  | succ m ih =>
    intro q r hq hr hlen
    have hlen1 : ((List.range m).flatMap f).length = m * L :=
      length_flatMap_range f L m (fun i hi => hlen i (Nat.lt_succ_of_lt hi))
    rw [List.range_succ, List.flatMap_append]
    rcases Nat.lt_succ_iff_lt_or_eq.mp hq with hq2 | hq2
    · have hidx : q * L + r < m * L := by
        have h1 : q * L + r < (q + 1) * L := by
          have : (q + 1) * L = q * L + L := by ring
          omega
        have h2 : (q + 1) * L ≤ m * L := Nat.mul_le_mul_right L hq2
        omega
      rw [List.getD_eq_getElem?_getD, List.getElem?_append, if_pos (by omega),
        ← List.getD_eq_getElem?_getD]
      exact ih q r hq2 hr (fun i hi => hlen i (Nat.lt_succ_of_lt hi))
    · subst hq2
      rw [List.getD_eq_getElem?_getD, List.getElem?_append, if_neg (by omega)]
      have : q * L + r - ((List.range q).flatMap f).length = r := by omega
      rw [this]
      simp [← List.getD_eq_getElem?_getD]

/-- Indexing a map over `List.range M` at an in-range position. -/
lemma getD_map_range {α : Type} (g : Nat → α) (d : α) (M k : Nat) (hk : k < M) :
    ((List.range M).map g).getD k d = g k := by
  rw [List.getD_eq_getElem?_getD, List.getElem?_map]
  simp [List.getElem?_range hk]

/-!
### khatri_rao_product (btas/generic/khatri_rao_product.h, lines 16-42)

The source resizes AB to `Range{A.extent(0) * B.extent(0), A.extent(1)}` and
then overwrites every entry with the triple loop

  for i < A.extent(0): for j < B.extent(0): for k < KRP_dim:
    AB.data()[i * B_row * KRP_dim + j * KRP_dim + k]
      = A.data()[i * KRP_dim + k] * B.data()[j * KRP_dim + k]

where `KRP_dim = A.extent(1)` is used as the row stride for BOTH A and B.
The loop writes each flat position of the resized buffer exactly once, in
increasing flat order, so the written buffer is the row-major concatenation
below. The prior contents of AB are irrelevant (the argument is ignored
after the resize because every position is overwritten). -/
def khatri_rao_product {α : Type} [Mul α] [Zero α] (A B _AB : Tensor α) : Tensor α :=
  { rows := A.rows * B.rows
    cols := A.cols
    data := (List.range A.rows).flatMap (fun i =>
      (List.range B.rows).flatMap (fun j =>
        (List.range A.cols).map (fun k =>
          A.data.getD (i * A.cols + k) 0 * B.data.getD (j * A.cols + k) 0))) }

/-- C1: for matrices A of shape (N, M) and B of shape (K, M),
khatri_rao_product(A, B, AB) resizes AB to shape (N*K, M) regardless of the
prior value of AB, and for all i < N, j < K, k < M the entry at row i*K + j
and column k equals A(i, k) * B(j, k): result row i*K + j is the elementwise
product of row i of A and row j of B. -/
theorem C1_khatri_rao_product {α : Type} [CommRing α] (A B AB : Tensor α)
    (hBC : B.cols = A.cols) (i j k : Nat)
    (hi : i < A.rows) (hj : j < B.rows) (hk : k < A.cols) :
    (khatri_rao_product A B AB).rows = A.rows * B.rows ∧
    (khatri_rao_product A B AB).cols = A.cols ∧
    (khatri_rao_product A B AB).entry (i * B.rows + j) k =
      A.entry i k * B.entry j k := by
  refine ⟨rfl, rfl, ?_⟩
  unfold khatri_rao_product Tensor.entry
  simp only
  have hflat : (i * B.rows + j) * A.cols + k = i * (B.rows * A.cols) + (j * A.cols + k) := by
    ring
  rw [hflat]
  have hinner : ∀ a, a < A.rows →
      ((List.range B.rows).flatMap (fun j =>
        (List.range A.cols).map (fun k =>
          A.data.getD (a * A.cols + k) 0 * B.data.getD (j * A.cols + k) 0))).length
        = B.rows * A.cols := by
    intro a _
    exact length_flatMap_range _ _ B.rows (fun b _ => by simp)
  rw [getD_flatMap_range _ (B.rows * A.cols) 0 A.rows i (j * A.cols + k) hi
      (by
        have h1 : j * A.cols + k < (j + 1) * A.cols := by
          have : (j + 1) * A.cols = j * A.cols + A.cols := by ring
          omega
        have h2 : (j + 1) * A.cols ≤ B.rows * A.cols := Nat.mul_le_mul_right _ hj
        omega)
      hinner]
  rw [getD_flatMap_range _ A.cols 0 B.rows j k hj hk (fun b _ => by simp)]
  rw [getD_map_range _ 0 A.cols k hk]
  rw [hBC]

/-- Witness for C1 at a concrete input: A = [[2]], B = [[3]], AB arbitrary. -/
theorem C1_khatri_rao_product_witness :
    (Tensor.mk 1 1 [(3 : ℤ)]).cols = (Tensor.mk 1 1 [(2 : ℤ)]).cols ∧
    (khatri_rao_product (Tensor.mk 1 1 [(2 : ℤ)]) (Tensor.mk 1 1 [3])
        (Tensor.mk 0 0 [])).entry 0 0 =
      (Tensor.mk 1 1 [(2 : ℤ)]).entry 0 0 * (Tensor.mk 1 1 [(3 : ℤ)]).entry 0 0 := by
  refine ⟨rfl, ?_⟩
  have h := C1_khatri_rao_product (Tensor.mk 1 1 [(2 : ℤ)]) (Tensor.mk 1 1 [3])
    (Tensor.mk 0 0 []) rfl 0 0 0 (by decide) (by decide) (by decide)
  simpa using h.2.2

/-!
### Error signals

BTAS_EXCEPTION messages raised by the modelled code, as a distinguished
error type. The constructor names stand for the following source messages:
* panelStepSize: "Panel step size cannot be less than or equal to zero"
* tooFewTests: "Too few convergence tests.  Must provide a list of panels
  convergence tests"
* badSymmetry: "Symmetries should always refer to factors at earlier positions"
* symmSizeMismatch: "Tensor describing symmetries must be equal to number of
  non-connected dimensions" (CP_DF_ALS) / "Too many symmetries provided" (CP_ALS)
* incorrectSymmetry: "Incorrectly defined symmetry" (CP_DF_ALS::ALS)
* svdPseudoInverseFailed: "SVD pseudo inverse failed" (pseudoInverse)
-/
inductive BtasError : Type
  | panelStepSize
  | tooFewTests
  | badSymmetry
  | symmSizeMismatch
  | incorrectSymmetry
  | svdPseudoInverseFailed
deriving DecidableEq

/-!
### The ALS sweep (cp_als.h CP_ALS::ALS lines 585-601, cp_df_als.h
CP_DF_ALS::ALS lines 540-554)

One sweep walks the modes i = 0 .. ndim-1 in order. The factor set A is
modelled as a function `Nat → α` over an abstract matrix type α (its numeric
content is irrelevant to the sweep bookkeeping); the per-mode least-squares
update (CP_ALS::direct / CP_ALS::update_w_KRP / CP_DF_ALS::direct) writes
only the factor of the mode being optimized and may read the whole factor
set, so it is modelled as an abstract `upd : Nat → (Nat → α) → α`.
-/

/-- One iteration of the CP_ALS::ALS sweep body for mode i:
`tmp = symmetries[i]; if (tmp != i) A[i] = A[tmp]; else <update A[i]>`. -/
def cpStep {α : Type} (symm : Nat → Nat) (upd : Nat → (Nat → α) → α)
    (A : Nat → α) (i : Nat) : Nat → α :=
  if symm i ≠ i then Function.update A i (A (symm i))
  else Function.update A i (upd i A)

/-- The CP_ALS::ALS sweep over modes 0 .. n-1. -/
def cpSweep {α : Type} (symm : Nat → Nat) (upd : Nat → (Nat → α) → α)
    (n : Nat) (A : Nat → α) : Nat → α :=
  (List.range n).foldl (cpStep symm upd) A

/-- One iteration of the CP_DF_ALS::ALS sweep body for mode i, including the
exception branch:
`tmp = symmetries[i]; if (tmp == i) <update>; else if (tmp < i) A[i] = A[tmp];
else BTAS_EXCEPTION("Incorrectly defined symmetry")`. -/
def cpDfStep {α : Type} (symm : Nat → Nat) (upd : Nat → (Nat → α) → α)
    (A : Nat → α) (i : Nat) : Except BtasError (Nat → α) :=
  if symm i = i then .ok (Function.update A i (upd i A))
  else if symm i < i then .ok (Function.update A i (A (symm i)))
  else .error .incorrectSymmetry

/-- The CP_DF_ALS::ALS sweep over a list of modes, propagating the exception. -/
def cpDfSweepAux {α : Type} (symm : Nat → Nat) (upd : Nat → (Nat → α) → α) :
    List Nat → (Nat → α) → Except BtasError (Nat → α)
  | [], A => .ok A
  | i :: rest, A =>
    match cpDfStep symm upd A i with
    | .error e => .error e
    | .ok A2 => cpDfSweepAux symm upd rest A2

/-- The CP_DF_ALS::ALS sweep over modes 0 .. n-1. -/
def cpDfSweep {α : Type} (symm : Nat → Nat) (upd : Nat → (Nat → α) → α)
    (n : Nat) (A : Nat → α) : Except BtasError (Nat → α) :=
  cpDfSweepAux symm upd (List.range n) A

/-- Peeling the last mode off a sweep. -/
lemma cpSweep_succ {α : Type} (symm : Nat → Nat) (upd : Nat → (Nat → α) → α)
    (n : Nat) (A : Nat → α) :
    cpSweep symm upd (n + 1) A = cpStep symm upd (cpSweep symm upd n A) n := by
  unfold cpSweep
  rw [List.range_succ, List.foldl_append]
  rfl

/-- A sweep step at mode i leaves every other factor untouched. -/
lemma cpStep_apply_ne {α : Type} (symm : Nat → Nat) (upd : Nat → (Nat → α) → α)
    (A : Nat → α) (i j : Nat) (h : j ≠ i) :
    cpStep symm upd A i j = A j := by
  unfold cpStep
  by_cases hs : symm i ≠ i <;> simp [hs, Function.update_noteq h]

/-- Factors below the processed bound are stable under further sweep steps. -/
lemma cpSweep_stable {α : Type} (symm : Nat → Nat) (upd : Nat → (Nat → α) → α)
    (A : Nat → α) (m : Nat) :
    ∀ m2, m ≤ m2 → ∀ j, j < m → cpSweep symm upd m2 A j = cpSweep symm upd m A j := by
  intro m2
  induction m2 with
  | zero => intro h j hj; omega
  | succ k ih =>
    intro h j hj
    rcases Nat.lt_succ_iff_lt_or_eq.mp (Nat.lt_succ_of_le h) with h2 | h2
    · rw [cpSweep_succ, cpStep_apply_ne _ _ _ _ _ (by omega)]
      exact ih (by omega) j hj
    · rw [h2]

/-- The final value of factor j is produced by the sweep step at mode j
applied to the state after the first j steps. -/
lemma cpSweep_apply {α : Type} (symm : Nat → Nat) (upd : Nat → (Nat → α) → α)
    (A : Nat → α) (n j : Nat) (hj : j < n) :
    cpSweep symm upd n A j = cpStep symm upd (cpSweep symm upd j A) j j := by
  rw [cpSweep_stable symm upd A (j + 1) n hj j (Nat.lt_succ_self j), cpSweep_succ]

/-- When the CP_DF sweep does not raise, it computes exactly the CP_ALS sweep. -/
lemma cpDfSweepAux_ok {α : Type} (symm : Nat → Nat) (upd : Nat → (Nat → α) → α) :
    ∀ (l : List Nat) (A B : Nat → α), cpDfSweepAux symm upd l A = .ok B →
      B = l.foldl (cpStep symm upd) A := by
  intro l
  induction l with
  | nil => intro A B h; cases h; rfl
  | cons i rest ih =>
    intro A B h
    unfold cpDfSweepAux cpDfStep at h
    by_cases h1 : symm i = i
    · simp only [h1, if_pos rfl] at h
      have : List.foldl (cpStep symm upd) A (i :: rest)
          = List.foldl (cpStep symm upd) (Function.update A i (upd i A)) rest := by
        simp [List.foldl_cons, cpStep, h1]
      rw [this]
      exact ih _ B h
    · by_cases h2 : symm i < i
      · simp only [h1, if_neg, if_pos h2] at h
        have : List.foldl (cpStep symm upd) A (i :: rest)
            = List.foldl (cpStep symm upd) (Function.update A i (A (symm i))) rest := by
          simp [List.foldl_cons, cpStep, h1]
        rw [this]
        exact ih _ B h
      · simp [h1, h2] at h

/-- Under a valid symmetry map the CP_DF sweep never raises and computes the
CP_ALS sweep. -/
lemma cpDfSweepAux_total {α : Type} (symm : Nat → Nat) (upd : Nat → (Nat → α) → α) :
    ∀ (l : List Nat) (A : Nat → α), (∀ i ∈ l, symm i ≤ i) →
      cpDfSweepAux symm upd l A = .ok (l.foldl (cpStep symm upd) A) := by
  intro l
  induction l with
  | nil => intro A _; rfl
  | cons i rest ih =>
    intro A hvalid
    have hi : symm i ≤ i := hvalid i (List.mem_cons_self i rest)
    by_cases h1 : symm i = i
    · have hstep : cpDfSweepAux symm upd (i :: rest) A
          = cpDfSweepAux symm upd rest (Function.update A i (upd i A)) := by
        simp [cpDfSweepAux, cpDfStep, h1]
      rw [hstep, ih _ (fun j hj => hvalid j (List.mem_cons_of_mem i hj)),
        List.foldl_cons]
      congr 2
      simp [cpStep, h1]
    · have h2 : symm i < i := lt_of_le_of_ne hi h1
      have hstep : cpDfSweepAux symm upd (i :: rest) A
          = cpDfSweepAux symm upd rest (Function.update A i (A (symm i))) := by
        simp [cpDfSweepAux, cpDfStep, h1, h2]
      rw [hstep, ih _ (fun j hj => hvalid j (List.mem_cons_of_mem i hj)),
        List.foldl_cons]
      congr 2
      simp [cpStep, h1]

/-- C2: for both engines (CP_ALS::ALS and CP_DF_ALS::ALS), constructed with a
valid symmetry map (every symmetries[i] at most i, which both constructors
enforce), at the end of every sweep each aliased mode j with
symmetries[j] != j carries exactly the same factor as its source mode:
A[j] = A[symmetries[j]]. This holds for a sweep started from any factor set,
hence after every sweep of the iterated ALS loop. -/
theorem C2_symmetry_invariant {α : Type} (symm : Nat → Nat)
    (upd : Nat → (Nat → α) → α) (A : Nat → α) (n j : Nat)
    (hvalid : ∀ i, i < n → symm i ≤ i) (hj : j < n) (hne : symm j ≠ j) :
    cpSweep symm upd n A j = cpSweep symm upd n A (symm j) ∧
    ∀ B, cpDfSweep symm upd n A = .ok B → B j = B (symm j) := by
  have hlt : symm j < j := lt_of_le_of_ne (hvalid j hj) hne
  have hmain : cpSweep symm upd n A j = cpSweep symm upd n A (symm j) := by
    have h1 : cpSweep symm upd n A j
        = cpSweep symm upd j A (symm j) := by
      rw [cpSweep_apply symm upd A n j hj]
      unfold cpStep
      rw [if_pos hne, Function.update_same]
    have h2 : cpSweep symm upd j A (symm j)
        = cpSweep symm upd (symm j + 1) A (symm j) :=
      cpSweep_stable symm upd A (symm j + 1) j hlt (symm j) (Nat.lt_succ_self _)
    have h3 : cpSweep symm upd n A (symm j)
        = cpSweep symm upd (symm j + 1) A (symm j) :=
      cpSweep_stable symm upd A (symm j + 1) n (by omega) (symm j) (Nat.lt_succ_self _)
    rw [h1, h2, h3]
  refine ⟨hmain, ?_⟩
  intro B hB
  have hfold := cpDfSweepAux_ok symm upd (List.range n) A B hB
  have : B = cpSweep symm upd n A := hfold
  rw [this]
  exact hmain

/-- Witness for C2 at a concrete input: two modes with symmetries = [0, 0],
a concrete update, started from the zero factor set. -/
theorem C2_symmetry_invariant_witness :
    (fun _ : Nat => 0) 1 ≠ 1 ∧
    cpSweep (fun _ => 0) (fun i A => A i + i + 1) 2 (fun _ => (0 : Nat)) 1 =
      cpSweep (fun _ => 0) (fun i A => A i + i + 1) 2 (fun _ => (0 : Nat)) 0 := by
  refine ⟨by decide, ?_⟩
  exact (C2_symmetry_invariant (fun _ => 0) (fun i A => A i + i + 1)
    (fun _ => (0 : Nat)) 2 1 (fun i _ => Nat.zero_le i) (by decide) (by decide)).1

/-!
### CP_DF_ALS constructors (cp_df_als.h lines 100-130)

The no-symmetry constructor fills symmetries with the identity; the
symmetry constructor copies symms, raises "Symmetries should always refer to
factors at earlier positions" if any symmetries[i] > i for i < ndim, and then
raises a size-mismatch error if symms.size() != ndim. -/
def CP_DF_ALS_check_symmetries (ndim : Nat) (symms : List Nat) :
    Except BtasError (List Nat) :=
  if (List.range ndim).any (fun i => decide (i < symms.getD i 0)) then
    .error .badSymmetry
  else if symms.length ≠ ndim then .error .symmSizeMismatch
  else .ok symms

/-- C9: for a CP_DF_ALS instance whose symmetry map passed the constructor
validation (so symmetries[i] <= i for every mode), the Incorrectly defined
symmetry exception branch in CP_DF_ALS::ALS is unreachable: every sweep
succeeds, each mode taking the update branch or the copy branch, and computes
the same factor set as the exception-free sweep. The identity map installed
by the no-symmetry constructor passes the same validation. -/
theorem C9_df_exception_unreachable {α : Type} (ndim : Nat) (symms : List Nat)
    (upd : Nat → (Nat → α) → α) (A : Nat → α)
    (hok : CP_DF_ALS_check_symmetries ndim symms = .ok symms) :
    cpDfSweep (fun i => symms.getD i 0) upd ndim A =
      .ok (cpSweep (fun i => symms.getD i 0) upd ndim A) ∧
    CP_DF_ALS_check_symmetries ndim (List.range ndim) = .ok (List.range ndim) := by
  constructor
  · unfold CP_DF_ALS_check_symmetries at hok
    by_cases hany : (List.range ndim).any (fun i => decide (i < symms.getD i 0))
    · rw [if_pos hany] at hok; cases hok
    · have hvalid : ∀ i ∈ List.range ndim, symms.getD i 0 ≤ i := by
        intro i hi
        by_contra hcon
        apply hany
        rw [List.any_eq_true]
        exact ⟨i, hi, by simpa using Nat.lt_of_not_le hcon⟩
      exact cpDfSweepAux_total _ upd (List.range ndim) A hvalid
  · unfold CP_DF_ALS_check_symmetries
    have hany : ¬ (List.range ndim).any (fun i => decide (i < (List.range ndim).getD i 0)) := by
      rw [List.any_eq_true]
      rintro ⟨i, hi, hlt⟩
      rw [List.mem_range] at hi
      rw [List.getD_eq_getElem?_getD] at hlt
      simp [List.getElem?_range hi] at hlt
    rw [if_neg hany, if_neg (by simp)]

/-- Witness for C9 at a concrete input: ndim = 2, symms = [0, 0]. -/
theorem C9_df_exception_unreachable_witness :
    CP_DF_ALS_check_symmetries 2 [0, 0] = .ok [0, 0] ∧
    cpDfSweep (fun i => [0, 0].getD i 0) (fun i A => A i + i) 2 (fun _ => (0 : Nat)) =
      .ok (cpSweep (fun i => [0, 0].getD i 0) (fun i A => A i + i) 2 (fun _ => (0 : Nat))) := by
  refine ⟨by rfl, ?_⟩
  exact (C9_df_exception_unreachable 2 [0, 0] (fun i A => A i + i)
    (fun _ => (0 : Nat)) (by rfl)).1

/-!
### The ALS iteration loop (cp_als.h CP_ALS::ALS lines 574-612, cp_df_als.h
CP_DF_ALS::ALS lines 528-563)

Both loops read

  size_t count = 0; bool is_converged = false;
  while (count < max_als && !is_converged) {
    count++; <one sweep>; is_converged = converge_test(A);
  }

with `max_als` an `int`. In the comparison `count < max_als` the int is
converted to size_t (64-bit unsigned), i.e. reduced modulo 2^64. Neither
engine validates max_als; there is no exception for a non-positive cap and
the function always returns normally from this loop (CP_ALS::ALS contains
no throw at all; CP_DF_ALS::ALS can only throw the symmetry error inside a
sweep, which is a different condition). -/
def intToSizeT (m : Int) : Nat := (m % (2 : Int) ^ 64).toNat

/-- The while loop, with the remaining iteration budget `fuel` standing for
max_als − count; returns the final state and the number of sweeps executed. -/
def alsLoopGo {σ : Type} (sweepF : σ → σ) (conv : σ → Bool) :
    Nat → σ → Nat → σ × Nat
  | 0, A, count => (A, count)
  | fuel + 1, A, count =>
    let A2 := sweepF A
    if conv A2 then (A2, count + 1) else alsLoopGo sweepF conv fuel A2 (count + 1)

/-- CP_ALS::ALS / CP_DF_ALS::ALS iteration structure: run sweeps until the
convergence test fires or the (converted) cap is reached, then return
normally. -/
def alsRun {σ : Type} (max_als : Int) (sweepF : σ → σ) (conv : σ → Bool)
    (A : σ) : σ × Nat :=
  alsLoopGo sweepF conv (intToSizeT max_als) A 0

/-- C8 counterexample: the claim says a non-positive cap fails fast with a
distinguished failure signal before any sweep. At the concrete non-positive
cap max_als = 0 the loop guard is immediately false, so the engine runs zero
sweeps and returns normally (the returned state is the untouched input and
the sweep count is 0) — there is no failure signal; and the concrete
negative cap max_als = −1 is converted to 2^64 − 1, an enormous iteration
bound under which sweeps proceed rather than fail. -/
theorem C8_nonpositive_cap_counterexample :
    alsRun 0 (fun x : Int => x + 1) (fun _ => false) 3 = (3, 0) ∧
    intToSizeT (-1) = 2 ^ 64 - 1 ∧
    intToSizeT 0 = 0 := by
  refine ⟨rfl, ?_, rfl⟩
  decide

/-- C8 amended: the engines do not validate the iteration cap. A cap of 0
runs zero sweeps and returns normally with the factor set untouched, and a
negative cap (any value representable in the C++ int argument) is converted
to 2^64 + max_als by the unsigned comparison, so the loop proceeds under an
effectively unbounded cap instead of failing. -/
theorem C8_nonpositive_cap_amended {σ : Type} (sweepF : σ → σ) (conv : σ → Bool)
    (A : σ) (m : Int) (hm : m ≤ 0) (hrange : -(2 ^ 31) ≤ m) :
    (m = 0 → alsRun m sweepF conv A = (A, 0)) ∧
    (m < 0 → (intToSizeT m : Int) = 2 ^ 64 + m) := by
  constructor
  · intro h0
    subst h0
    rfl
  · intro hneg
    unfold intToSizeT
    have hmod : m % (2 : Int) ^ 64 = m + 2 ^ 64 := by omega
    rw [hmod]
    have : (0 : Int) ≤ m + 2 ^ 64 := by omega
    omega

/-- Witness for C8 amended at the concrete cap m = −1. -/
theorem C8_nonpositive_cap_amended_witness :
    (-1 : Int) < 0 ∧ (intToSizeT (-1) : Int) = 2 ^ 64 + (-1) := by
  refine ⟨by decide, ?_⟩
  exact (C8_nonpositive_cap_amended (fun x : Int => x) (fun _ => false) 0 (-1)
    (by decide) (by decide)).2 (by decide)

/-!
### Transient reshapes of the caller-owned reference tensors

CP_ALS::direct (cp_als.h lines 702-847) touches tensor_ref as follows:
save `Range R = tensor_ref.range()` (line 720); resize tensor_ref to the
two-mode range used by the first gemm (lines 725-727); gemm (line 730,
BLAS matrix multiply, no failure status); resize tensor_ref back to R
(line 733). All remaining work, including the hadamard contraction loops,
operates on the local `temp` copies; the only fallible operation,
pseudoinverse_helper (line 842, which can raise "SVD pseudo inverse
failed"), runs after the restore, so an exception there propagates with
tensor_ref already restored. A range is modelled as its extent list. -/
def cpAlsDirectRun (R : List Nat) (last_dim : Bool) (contract_extent : Nat)
    (pinvFails : Bool) : Except BtasError Unit × List Nat :=
  let sz := R.foldl (· * ·) 1
  let _reshaped : List Nat :=
    if last_dim then [contract_extent, sz / contract_extent]
    else [sz / contract_extent, contract_extent]
  let restored := R
  (if pinvFails then .error .svdPseudoInverseFailed else .ok (), restored)

/-- CP_DF_ALS::direct (cp_df_als.h lines 585-807): when the side cache is
stale (lastLeft != leftTensor) it reshapes the side NOT containing mode n
(resize at line 617, gemm at line 620, restore to the saved range at line
622) and then the side containing n (resize at line 678, gemm at line 680,
restore at line 682); when the cache is warm it reshapes nothing. The only
fallible operation, pseudoinverse_helper (line 798), runs after both
restores. Returns the outcome together with the final (left, right) ranges. -/
def cpDfDirectRun (RL RR : List Nat) (leftTensor lastLeft : Bool)
    (pinvFails : Bool) : Except BtasError Unit × List Nat × List Nat :=
  if lastLeft ≠ leftTensor then
    let other := if leftTensor then RR else RL
    let sizeCurr := other.foldl (· * ·) 1
    let contract_size := other.getLastD 1
    let _reshaped1 : List Nat := [sizeCurr / contract_size, contract_size]
    let otherRestored := other
    let side := if leftTensor then RL else RR
    let lhSize := (side.foldl (· * ·) 1) / side.headD 1
    let _reshaped2 : List Nat := [side.headD 1, lhSize]
    let sideRestored := side
    ((if pinvFails then .error .svdPseudoInverseFailed else .ok ()),
      (if leftTensor then sideRestored else otherRestored),
      (if leftTensor then otherRestored else sideRestored))
  else
    ((if pinvFails then .error .svdPseudoInverseFailed else .ok ()), RL, RR)

/-- C3: in both per-mode update routines (CP_ALS::direct and
CP_DF_ALS::direct) and on every exit path — success or the pseudoinverse
failure exit — the caller-owned reference tensors end the call with exactly
the range they had on entry, because every in-place reshape for a gemm is
followed immediately by a resize back to the saved range, before the
fallible pseudoinverse step. -/
theorem C3_reference_range_restored (R RL RR : List Nat)
    (last_dim leftTensor lastLeft pinvFails : Bool) (contract_extent : Nat) :
    (cpAlsDirectRun R last_dim contract_extent pinvFails).2 = R ∧
    (cpDfDirectRun RL RR leftTensor lastLeft pinvFails).2 = (RL, RR) := by
  constructor
  · rfl
  · unfold cpDfDirectRun
    by_cases hc : lastLeft ≠ leftTensor
    · rw [if_pos hc]
      by_cases hl : leftTensor <;> simp [hl]
    · rw [if_neg hc]

/-!
### Inverse_Matrix (linear_algebra.h lines 137-166)

The routine calls the external LAPACK kernels dgetrf (pivoted LU, in place,
also producing the pivot vector) and dgetri (inverse from the LU factors).
Both kernels are outside the repository, so they enter the model as
function parameters returning none exactly when their info status is
nonzero. The repository code is: on dgetrf failure set `A = Tensor()`
(default-constructed empty tensor) and return false; otherwise on dgetri
failure set `A = Tensor()` and return false; otherwise return true with A
holding the kernel output. The rank > 2 exception cannot fire in this
model because every modelled tensor is a matrix. -/
def emptyTensor {α : Type} : Tensor α := ⟨0, 0, []⟩

/-- Result of Inverse_Matrix: the returned bool and the final value of the
in-out argument A. -/
def Inverse_Matrix {α : Type}
    (dgetrf : Tensor α → Option (Tensor α × List Int))
    (dgetri : Tensor α → List Int → Option (Tensor α))
    (A : Tensor α) : Bool × Tensor α :=
  match dgetrf A with
  | none => (false, emptyTensor)
  | some (A1, piv) =>
    match dgetri A1 piv with
    | none => (false, emptyTensor)
    | some A2 => (true, A2)

/-- C10: Inverse_Matrix returns true and replaces A with the LU-based
inverse when both the LU factorization and the LU-based inversion succeed;
if either step reports failure it returns false and leaves A equal to a
default-constructed empty tensor, so the original value of A is not
preserved on the error path. -/
theorem C10_Inverse_Matrix {α : Type}
    (dgetrf : Tensor α → Option (Tensor α × List Int))
    (dgetri : Tensor α → List Int → Option (Tensor α)) (A : Tensor α) :
    (dgetrf A = none → Inverse_Matrix dgetrf dgetri A = (false, emptyTensor)) ∧
    (∀ A1 piv, dgetrf A = some (A1, piv) →
      (dgetri A1 piv = none →
        Inverse_Matrix dgetrf dgetri A = (false, emptyTensor)) ∧
      (∀ A2, dgetri A1 piv = some A2 →
        Inverse_Matrix dgetrf dgetri A = (true, A2))) := by
  constructor
  · intro h
    simp [Inverse_Matrix, h]
  · intro A1 piv h
    constructor
    · intro h2
      simp [Inverse_Matrix, h, h2]
    · intro A2 h2
      simp [Inverse_Matrix, h, h2]

/-- Witness for C10 at a concrete input: a failing LU kernel on the
nonempty matrix [[7]]; the result is (false, empty tensor), which differs
from the original A, so the original value is lost. -/
theorem C10_Inverse_Matrix_witness :
    Inverse_Matrix (fun _ => none) (fun _ _ => none) (Tensor.mk 1 1 [(7 : ℤ)]) =
      (false, emptyTensor) ∧
    Tensor.mk 1 1 [(7 : ℤ)] ≠ emptyTensor := by
  refine ⟨?_, by decide⟩
  exact (C10_Inverse_Matrix (fun _ => none) (fun _ _ => none)
    (Tensor.mk 1 1 [(7 : ℤ)])).1 rfl

/-!
### pseudoInverse (linear_algebra.h lines 200-263)

The routine takes a square R-by-R matrix, computes its full SVD
a = U diag(s) Vt through the external LAPACKE_dgesvd_work kernel, and then
builds the pseudoinverse from s, U and Vt. The SVD itself is external, so
the model takes the singular values s and the factors U, Vt as inputs and
translates what the repository computes from them (lines 244-259):

  double lr_thresh = 1e-13;
  s_inv.fill(0.0);
  for i < R: if (s(i) > lr_thresh) s_inv(i, i) = 1 / s(i);
             else                  s_inv(i, i) = s(i);
  gemm(U, s_inv, s); gemm(s, Vt, U); return U;

Note the else branch stores the singular value itself, not zero, although
the comment above it in the source reads "Inverse the Singular values with
threshold 1e-13 = 0". -/
def gemm (A B : Tensor ℚ) : Tensor ℚ :=
  { rows := A.rows
    cols := B.cols
    data := (List.range A.rows).flatMap (fun i =>
      (List.range B.cols).map (fun j =>
        (List.range A.cols).foldl (fun acc k => acc + A.entry i k * B.entry k j) 0)) }

/-- Small-singular-value threshold used by pseudoInverse. -/
def lr_thresh : ℚ := 1 / 10 ^ 13

/-- Value written to the diagonal of s_inv for singular value x. -/
def sInvEntry (x : ℚ) : ℚ := if lr_thresh < x then x⁻¹ else x

/-- pseudoInverse given the SVD output s, U, Vt of the R-by-R input. -/
def pseudoInverse (R : Nat) (s : Nat → ℚ) (U Vt : Tensor ℚ) : Tensor ℚ :=
  let s_inv : Tensor ℚ :=
    { rows := R
      cols := R
      data := (List.range R).flatMap (fun i =>
        (List.range R).map (fun j => if i = j then sInvEntry (s i) else 0)) }
  gemm (gemm U s_inv) Vt

/-- C4: the claim (and the comment in the source) say every singular value
at or below the 1e-13 threshold contributes zero to the pseudoinverse. The
code instead stores the singular value itself on that branch: at the
concrete failing input R = 1 with SVD s = (1e-14), U = Vt = [[1]] (the SVD
of the 1-by-1 matrix [[1e-14]]), the computed pseudoinverse entry is 1e-14,
which is not zero, while 1e-14 is at or below the threshold. -/
theorem C4_pseudoInverse_threshold_bug :
    (pseudoInverse 1 (fun _ => 1 / 10 ^ 14) (Tensor.mk 1 1 [1])
      (Tensor.mk 1 1 [1])).entry 0 0 = 1 / 10 ^ 14 ∧
    (1 / 10 ^ 14 : ℚ) ≠ 0 ∧
    ¬ lr_thresh < (1 / 10 ^ 14 : ℚ) := by
  refine ⟨?_, by norm_num, ?_⟩
  · unfold pseudoInverse gemm Tensor.entry
    norm_num [List.range_succ, sInvEntry, lr_thresh]
  · unfold lr_thresh
    norm_num

/-!
### Incremental rank growth (cp_als.h CP_ALS::build lines 468-502,
cp_df_als.h CP_DF_ALS::build lines 416-449)

One pass of the growth loop body (the branch taken when factor matrices
already exist) processes j = 0 .. ndim-1. At each j it reads the front
factor A[0] (extents row_extent x rank_old), allocates
b(row_extent, rank_new), copies A[0] into the first rank_old columns of b
through a row-major slice view, fills columns rank_old .. rank_new-1 with
draws from a freshly seeded uniform generator (iterated row-major over the
new-column slice, so position (r, rank_old + c) receives draw number
r * (rank_new - rank_old) + c), erases the front of A and pushes b at the
back. On the last j it additionally erases the front once more (dropping
the old weight vector, which has rotated to the front). After the loop a
NEW weight vector `Tensor lam(Range{Range1{rank_new}})` is pushed; its
std::vector storage is value-initialized, i.e. all zeros — the old weights
are discarded, and no normalization of the appended columns happens in
this branch. -/
def growFactor {α : Type} [Zero α] (rank_new : Nat) (rnd : Nat → α)
    (M : Tensor α) : Tensor α :=
  { rows := M.rows
    cols := rank_new
    data := (List.range M.rows).flatMap (fun r =>
      (List.range M.cols).map (fun c => M.entry r c) ++
      (List.range (rank_new - M.cols)).map (fun c =>
        rnd (r * (rank_new - M.cols) + c))) }

/-- The zero-initialized weight vector `Tensor lam(Range{Range1{r}})`. -/
def lamZeros {α : Type} [Zero α] (r : Nat) : Tensor α :=
  ⟨r, 1, List.replicate r 0⟩

/-- k iterations of `A.erase(A.begin()); A.push_back(b)` with b grown from
the front factor. -/
def growRots {α : Type} [Zero α] (rank_new : Nat) (rnd : Nat → α) :
    Nat → List (Tensor α) → List (Tensor α)
  | 0, S => S
  | k + 1, S => growRots rank_new rnd k (S.tail ++ [growFactor rank_new rnd S.headI])

/-- The full growth pass over the factor list S = factors ++ [weights]:
d rotations (the extra erase of the last iteration is the final tail, since
no rotation follows it), then the fresh zero weight vector is appended. -/
def buildGrowStep {α : Type} [Zero α] (d rank_new : Nat) (rnd : Nat → α)
    (S : List (Tensor α)) : List (Tensor α) :=
  (growRots rank_new rnd d S).tail ++ [lamZeros rank_new]

/-- Rotating through the first P.length entries grows each of them and moves
them behind Q. -/
lemma growRots_append {α : Type} [Zero α] (rank_new : Nat) (rnd : Nat → α) :
    ∀ (P Q : List (Tensor α)),
      growRots rank_new rnd P.length (P ++ Q) =
        Q ++ P.map (growFactor rank_new rnd) := by
  intro P
  induction P with
  | nil => intro Q; simp [growRots]
  | cons F P2 ih =>
    intro Q
    have h1 : ((F :: P2) ++ Q).tail = P2 ++ Q := rfl
    have h2 : ((F :: P2) ++ Q).headI = F := rfl
    show growRots rank_new rnd (P2.length + 1) ((F :: P2) ++ Q) = _
    rw [growRots, h1, h2, List.append_assoc]
    rw [ih (Q ++ [growFactor rank_new rnd F])]
    simp

/-- C5 counterexample: the claim says rank growth appends random,
column-normalized columns and preserves the first r entries of the weight
vector. Concrete run of the growth pass with ndim = 2 factor matrices
[[2]], [[4]], weight vector [5], growing rank 1 → 2 with every random draw
equal to 3: the factors become [[2, 3]], [[4, 3]] (old column preserved,
random column appended) but the weight vector becomes [0, 0] — its first
entry is 0, not the previous weight 5 — and the appended column [3] of the
first factor has squared 2-norm 9, not 1, so it is not column-normalized. -/
theorem C5_growth_counterexample :
    buildGrowStep 2 2 (fun _ => (3 : ℤ))
        [Tensor.mk 1 1 [2], Tensor.mk 1 1 [4], Tensor.mk 1 1 [5]] =
      [Tensor.mk 1 2 [2, 3], Tensor.mk 1 2 [4, 3], Tensor.mk 2 1 [0, 0]] ∧
    (Tensor.mk 2 1 [(0 : ℤ), 0]).entry 0 0 ≠ (Tensor.mk 1 1 [(5 : ℤ)]).entry 0 0 ∧
    (Tensor.mk 1 2 [(2 : ℤ), 3]).entry 0 1 * (Tensor.mk 1 2 [(2 : ℤ), 3]).entry 0 1 ≠ 1 := by
  refine ⟨by decide, by decide, by decide⟩

/-- C5 amended: whenever the incremental growth branch of build (in either
engine) grows the common rank from r to r2, it appends r2 − r
randomly-drawn, unnormalized columns to every factor matrix in the list
(aliased or not), preserving the first r columns of each factor matrix;
the weight vector is not preserved: the old one is discarded and replaced
by a fresh zero-initialized vector of length r2. -/
theorem C5_build_growth_amended {α : Type} [Zero α] (rank_new : Nat)
    (rnd : Nat → α) (Fs : List (Tensor α)) (lam M : Tensor α)
    (hcols : M.cols ≤ rank_new) :
    buildGrowStep Fs.length rank_new rnd (Fs ++ [lam]) =
      Fs.map (growFactor rank_new rnd) ++ [lamZeros rank_new] ∧
    (growFactor rank_new rnd M).rows = M.rows ∧
    (growFactor rank_new rnd M).cols = rank_new ∧
    (∀ i c, i < M.rows → c < M.cols →
      (growFactor rank_new rnd M).entry i c = M.entry i c) ∧
    (∀ i c, i < M.rows → M.cols ≤ c → c < rank_new →
      (growFactor rank_new rnd M).entry i c =
        rnd (i * (rank_new - M.cols) + (c - M.cols))) := by
  have hlen : ∀ r : Nat,
      ((List.range M.cols).map (fun c => M.data.getD (r * M.cols + c) 0) ++
      (List.range (rank_new - M.cols)).map (fun c =>
        rnd (r * (rank_new - M.cols) + c))).length = rank_new := by
    intro r
    simp [Nat.add_sub_cancel' hcols]
  refine ⟨?_, rfl, rfl, ?_, ?_⟩
  · unfold buildGrowStep
    rw [growRots_append rank_new rnd Fs [lam]]
    rfl
  · intro i c hi hc
    unfold growFactor Tensor.entry
    simp only
    rw [getD_flatMap_range _ rank_new 0 M.rows i c hi (by omega) (fun r _ => hlen r)]
    rw [List.getD_eq_getElem?_getD, List.getElem?_append,
      if_pos (by simpa using hc), ← List.getD_eq_getElem?_getD]
    exact getD_map_range _ 0 M.cols c hc
  · intro i c hi hc1 hc2
    unfold growFactor Tensor.entry
    simp only
    rw [getD_flatMap_range _ rank_new 0 M.rows i c hi (by omega) (fun r _ => hlen r)]
    rw [List.getD_eq_getElem?_getD, List.getElem?_append,
      if_neg (by simpa using Nat.not_lt.mpr hc1), ← List.getD_eq_getElem?_getD]
    have hlt : c - M.cols < rank_new - M.cols := by omega
    have := getD_map_range (fun c2 =>
      rnd (i * (rank_new - M.cols) + c2)) 0 (rank_new - M.cols) (c - M.cols) hlt
    simpa using this

/-- Witness for C5 amended at a concrete input: one 1x1 factor [[2]] plus
weight vector [5], grown to rank 2 with all draws equal to 3. -/
theorem C5_build_growth_amended_witness :
    (Tensor.mk 1 1 [(2 : ℤ)]).cols ≤ 2 ∧
    buildGrowStep 1 2 (fun _ => (3 : ℤ))
        [Tensor.mk 1 1 [2], Tensor.mk 1 1 [5]] =
      [Tensor.mk 1 1 [(2 : ℤ)]].map (growFactor 2 (fun _ => (3 : ℤ))) ++
        [lamZeros 2] := by
  refine ⟨by decide, ?_⟩
  exact (C5_build_growth_amended 2 (fun _ => (3 : ℤ))
    [Tensor.mk 1 1 [2]] (Tensor.mk 1 1 [5]) (Tensor.mk 1 1 [2]) (by decide)).1

/-!
### compute_PALS (cp_als.h CP_ALS::compute_PALS lines 145-215, cp_df_als.h
CP_DF_ALS::compute_PALS lines 157-232)

Entry checks, in source order:
  if (RankStep <= 0) BTAS_EXCEPTION("Panel step size cannot be ...");
  if (converge_list.size() < panels) BTAS_EXCEPTION("Too few convergence
    tests. ...");
Then max_dim is the largest mode extent; panel 0 calls
build(max_dim, ..., SVD_initial_guess = true, SVD_rank = max_dim); each
later panel reads rank = A[0].extent(1), computes
rank_new = rank + RankStep * max_dim (double arithmetic truncated to the
unsigned index type; all values here are positive, so this is the floor),
runs the growth pass (which for PALS also copies the first rank weights
into the replacement weight vector and calls normCol(0) once per factor),
and then runs ALS at rank_new.

The eigensolver content of the SVD initial guess (external dsyev), the
random draws, the per-call normCol folding and the ALS numeric updates do
not affect the shape bookkeeping this section verifies; they enter as
parameters `content`, `rnd`, `nc` and `als`, of which `nc` and `als` are
assumed shape-preserving in the theorems (normCol rescales columns in
place and ALS writes each factor back with its own shape). -/

/-- Largest mode extent of the reference tensor (compute_PALS lines 154-158). -/
def maxExtent (dims : List Nat) : Nat := dims.tail.foldl Nat.max dims.headI

/-- Factor matrices produced by the SVD initial guess branch of build
(cp_als.h lines 360-441): one factor per mode with row count the mode
extent and column count SVD_rank; entries come from the external
eigensolver and the random padding, abstracted as `content`. -/
def svdGuessFactors {α : Type} (dims : List Nat) (SVD_rank : Nat)
    (content : Nat → Nat → α) : List (Tensor α) :=
  (List.range dims.length).map (fun i =>
    ⟨dims.getD i 0, SVD_rank, (List.range (dims.getD i 0 * SVD_rank)).map (content i)⟩)

/-- The incremental loop of build (cp_als.h line 445): while the current
column count is below the target rank, grow by one column and optimize;
`fuel` bounds the iterations by the target rank. -/
def buildIncrLoop {α : Type} [Zero α] (rnd : Nat → α)
    (als : List (Tensor α) → List (Tensor α)) (rank : Nat) :
    Nat → List (Tensor α) → List (Tensor α)
  | 0, A => A
  | fuel + 1, A =>
    if A.headI.cols < rank then
      buildIncrLoop rnd als rank fuel
        (als (buildGrowStep (A.length - 1) (A.headI.cols + 1) rnd A))
    else A

/-- CP_ALS::build with SVD_initial_guess = true starting from empty factors:
the SVD guess at SVD_rank (normalized by normCol, then optimized by ALS),
then the incremental loop up to the target rank. -/
def CP_ALS_build {α : Type} [Zero α] (dims : List Nat) (rank SVD_rank : Nat)
    (content : Nat → Nat → α) (rnd : Nat → α)
    (nc als : List (Tensor α) → List (Tensor α)) : List (Tensor α) :=
  buildIncrLoop rnd als rank rank
    (als (nc (svdGuessFactors dims SVD_rank content ++ [lamZeros SVD_rank])))

/-- The replacement weight vector built in the last iteration of the PALS
growth pass (compute_PALS lines 201-206): the grown factor b is resized to
a length rank_new vector (std::vector resize keeps the data prefix, i.e.
row 0 of b) and its first extent entries are overwritten with the old
weights, which sit at the front of the rotated factor list. -/
def palsNewLam {α : Type} [Zero α] (rank_new : Nat) (S1 : List (Tensor α)) :
    Tensor α :=
  ⟨rank_new, 1, (List.range rank_new).map (fun k =>
    if k < S1.headI.rows then S1.headI.data.getD k 0
    else (S1.getLastD default).data.getD k 0)⟩

/-- The PALS growth pass (compute_PALS lines 173-209): per factor, rotate
the grown front factor to the back; in the last iteration also replace the
weight vector; after each iteration call normCol(0), modelled by the
shape-preserving `nc`. -/
def palsGrowAux {α : Type} [Zero α] (rank_new : Nat) (rnd : Nat → α)
    (nc : List (Tensor α) → List (Tensor α)) :
    Nat → List (Tensor α) → List (Tensor α)
  | 0, S => S
  | rem + 1, S =>
    let S1 := S.tail ++ [growFactor rank_new rnd S.headI]
    let S2 := if rem = 0 then S1.tail ++ [palsNewLam rank_new S1] else S1
    palsGrowAux rank_new rnd nc rem (nc S2)

/-- The panel loop of compute_PALS after panel 0: each remaining panel
grows the rank by RankStep * max_dim (truncated) and optimizes. -/
def palsGrowPanels {α : Type} [Zero α] (maxd : Nat) (RankStep : ℚ)
    (rnd : Nat → α) (nc als : List (Tensor α) → List (Tensor α)) :
    Nat → List (Tensor α) → List (Tensor α)
  | 0, A => A
  | k + 1, A =>
    let rank_new := (((A.headI.cols : ℚ) + RankStep * (maxd : ℚ)).floor).toNat
    palsGrowPanels maxd RankStep rnd nc als k
      (als (palsGrowAux rank_new rnd nc (A.length - 1) A))

/-- The panel work of CP_ALS::compute_PALS after the entry checks: panel 0
builds with the SVD guess at rank = SVD_rank = max_dim, later panels grow. -/
def CP_ALS_compute_PALS_work {α : Type} [Zero α] (dims : List Nat)
    (RankStep : ℚ) (panels : Nat) (content : Nat → Nat → α) (rnd : Nat → α)
    (nc als : List (Tensor α) → List (Tensor α)) : List (Tensor α) :=
  match panels with
  | 0 => []
  | p + 1 =>
    palsGrowPanels (maxExtent dims) RankStep rnd nc als p
      (CP_ALS_build dims (maxExtent dims) (maxExtent dims) content rnd nc als)

/-- CP_ALS::compute_PALS: the two entry checks in source order, then the
panel work. -/
def CP_ALS_compute_PALS {α : Type} [Zero α] (dims : List Nat) (RankStep : ℚ)
    (panels ntests : Nat) (content : Nat → Nat → α) (rnd : Nat → α)
    (nc als : List (Tensor α) → List (Tensor α)) :
    Except BtasError (List (Tensor α)) :=
  if RankStep ≤ 0 then .error .panelStepSize
  else if ntests < panels then .error .tooFewTests
  else .ok (CP_ALS_compute_PALS_work dims RankStep panels content rnd nc als)

/-- CP_DF_ALS::compute_PALS has the identical entry checks (lines 160-162)
ahead of its panel work; the panel work itself is irrelevant to the guard
claims and enters as the parameter `work`. -/
def CP_DF_ALS_compute_PALS_guard {α : Type} (RankStep : ℚ)
    (panels ntests : Nat) (work : List (Tensor α)) :
    Except BtasError (List (Tensor α)) :=
  if RankStep ≤ 0 then .error .panelStepSize
  else if ntests < panels then .error .tooFewTests
  else .ok work

/-- C7: in both engines, a compute_PALS call supplying fewer convergence
tests than panels (with a valid RankStep, so that the tests check is the
one that fires) raises the distinguished "Too few convergence tests" error
before any panel work: the result is the error for every possible panel
work, so no factor matrix is built or modified, and nothing retries the
call. -/
theorem C7_too_few_convergence_tests {α : Type} [Zero α] (dims : List Nat)
    (RankStep : ℚ) (panels ntests : Nat) (content : Nat → Nat → α)
    (rnd : Nat → α) (nc als : List (Tensor α) → List (Tensor α))
    (hstep : 0 < RankStep) (hfew : ntests < panels) :
    CP_ALS_compute_PALS dims RankStep panels ntests content rnd nc als =
      .error .tooFewTests ∧
    ∀ work : List (Tensor α),
      CP_DF_ALS_compute_PALS_guard RankStep panels ntests work =
        .error .tooFewTests := by
  constructor
  · unfold CP_ALS_compute_PALS
    rw [if_neg (not_le.mpr hstep), if_pos hfew]
  · intro work
    unfold CP_DF_ALS_compute_PALS_guard
    rw [if_neg (not_le.mpr hstep), if_pos hfew]

/-- Witness for C7 at a concrete input: RankStep = 1/2, 2 panels, 1 test. -/
theorem C7_too_few_convergence_tests_witness :
    (0 : ℚ) < 1 / 2 ∧ 1 < 2 ∧
    CP_ALS_compute_PALS [2, 3] (1 / 2) 2 1 (fun _ _ => (0 : ℤ)) (fun _ => 0)
        id id = .error .tooFewTests := by
  refine ⟨by norm_num, by decide, ?_⟩
  exact (C7_too_few_convergence_tests [2, 3] (1 / 2) 2 1 (fun _ _ => (0 : ℤ))
    (fun _ => 0) id id (by norm_num) (by decide)).1

/-- Shapes commute with headI (both defaults are (0, 0)). -/
lemma headI_shapes {α : Type} (S : List (Tensor α)) :
    (shapes S).headI = S.headI.shape := by
  cases S <;> rfl

/-- Shapes commute with tail. -/
lemma shapes_tail {α : Type} (S : List (Tensor α)) :
    shapes S.tail = (shapes S).tail := by
  cases S <;> rfl

/-- Shapes commute with append. -/
lemma shapes_append {α : Type} (S T : List (Tensor α)) :
    shapes (S ++ T) = shapes S ++ shapes T :=
  List.map_append _ S T

/-- Mapping a function of getD over the index range of a list is mapping
over the list. -/
lemma map_range_getD {α β : Type} (l : List α) (f : α → β) (d : α) :
    (List.range l.length).map (fun i => f (l.getD i d)) = l.map f := by
  induction l with
  | nil => rfl
  | cons a t ih =>
    show (List.range (t.length + 1)).map (fun i => f ((a :: t).getD i d)) = _
    rw [List.range_succ_eq_map, List.map_cons, List.map_map]
    have hcomp : ((fun i => f ((a :: t).getD i d)) ∘ Nat.succ)
        = fun i => f (t.getD i d) := by
      funext i
      simp [List.getD_cons_succ]
    rw [hcomp, ih]
    rfl

/-- Shapes of the SVD initial guess factors. -/
lemma shapes_svdGuessFactors {α : Type} (dims : List Nat) (R : Nat)
    (content : Nat → Nat → α) :
    shapes (svdGuessFactors dims R content) = dims.map (fun r => (r, R)) := by
  unfold shapes svdGuessFactors
  rw [List.map_map]
  have hcomp : (Tensor.shape ∘ fun i =>
      (⟨dims.getD i 0, R, (List.range (dims.getD i 0 * R)).map (content i)⟩ : Tensor α))
      = fun i => (fun r => (r, R)) (dims.getD i 0) := by
    funext i
    rfl
  rw [hcomp, map_range_getD dims (fun r => (r, R)) 0]

/-- The head of a mapped nonempty list followed by anything. -/
lemma headI_map_append {α β : Type} [Inhabited α] [Inhabited β] (l : List α)
    (f : α → β) (rest : List β) (h : l ≠ []) :
    (l.map f ++ rest).headI = f l.headI := by
  cases l with
  | nil => exact absurd rfl h
  | cons a t => rfl

/-- Shape-level transcription of one PALS growth pass: what palsGrowAux does
to the shape list, independent of the numeric contents. -/
def palsShapeAux (rank_new : Nat) : Nat → List (Nat × Nat) → List (Nat × Nat)
  | 0, L => L
  | rem + 1, L =>
    let L1 := L.tail ++ [(L.headI.1, rank_new)]
    let L2 := if rem = 0 then L1.tail ++ [(rank_new, 1)] else L1
    palsShapeAux rank_new rem L2

/-- When normCol is shape-preserving, the shapes of a PALS growth pass are
computed by the shape-level transcription. -/
lemma shapes_palsGrowAux {α : Type} [Zero α] (rank_new : Nat) (rnd : Nat → α)
    (nc : List (Tensor α) → List (Tensor α))
    (Hnc : ∀ S, shapes (nc S) = shapes S) :
    ∀ rem (S : List (Tensor α)),
      shapes (palsGrowAux rank_new rnd nc rem S) =
        palsShapeAux rank_new rem (shapes S) := by
  intro rem
  induction rem with
  | zero => intro S; rfl
  | succ rem ih =>
    intro S
    have hS1 : shapes (S.tail ++ [growFactor rank_new rnd S.headI])
        = (shapes S).tail ++ [((shapes S).headI.1, rank_new)] := by
      rw [shapes_append, shapes_tail, headI_shapes]
      rfl
    have hunfold : palsGrowAux rank_new rnd nc (rem + 1) S
        = palsGrowAux rank_new rnd nc rem (nc (if rem = 0
            then (S.tail ++ [growFactor rank_new rnd S.headI]).tail
              ++ [palsNewLam rank_new (S.tail ++ [growFactor rank_new rnd S.headI])]
            else S.tail ++ [growFactor rank_new rnd S.headI])) := rfl
    have hunfold2 : palsShapeAux rank_new (rem + 1) (shapes S)
        = palsShapeAux rank_new rem (if rem = 0
            then ((shapes S).tail ++ [((shapes S).headI.1, rank_new)]).tail ++ [(rank_new, 1)]
            else (shapes S).tail ++ [((shapes S).headI.1, rank_new)]) := rfl
    rw [hunfold, hunfold2, ih, Hnc]
    congr 1
    by_cases hrem : rem = 0
    · rw [if_pos hrem, if_pos hrem, shapes_append, shapes_tail, hS1]
      rfl
    · rw [if_neg hrem, if_neg hrem, hS1]

/-- Evaluating the shape-level growth pass: the factor block P (rotated
through in order) gets its column counts replaced by rank_new, the old
weight entry x is dropped, and the fresh weight shape is appended. -/
lemma palsShapeAux_spec (rank_new : Nat) :
    ∀ (P : List (Nat × Nat)), 1 ≤ P.length → ∀ (Q : List (Nat × Nat)) (x : Nat × Nat),
      palsShapeAux rank_new P.length (P ++ x :: Q) =
        (Q ++ P.map (fun p => (p.1, rank_new))) ++ [(rank_new, 1)] := by
  intro P
  induction P with
  | nil => intro h; simp at h
  | cons a P2 ih =>
    intro _ Q x
    cases P2 with
    | nil =>
      show palsShapeAux rank_new (0 + 1) ([a] ++ x :: Q) = _
      have hstep : palsShapeAux rank_new (0 + 1) ([a] ++ x :: Q)
          = (Q ++ [(a.1, rank_new)]) ++ [(rank_new, 1)] := rfl
      rw [hstep]
      simp
    | cons b P3 =>
      show palsShapeAux rank_new ((b :: P3).length + 1) ((a :: b :: P3) ++ x :: Q) = _
      have hstep : palsShapeAux rank_new ((b :: P3).length + 1) ((a :: b :: P3) ++ x :: Q)
          = palsShapeAux rank_new (b :: P3).length
              (if (b :: P3).length = 0
               then (((a :: b :: P3) ++ x :: Q).tail
                 ++ [(((a :: b :: P3) ++ x :: Q).headI.1, rank_new)]).tail ++ [(rank_new, 1)]
               else ((a :: b :: P3) ++ x :: Q).tail
                 ++ [(((a :: b :: P3) ++ x :: Q).headI.1, rank_new)]) := rfl
      rw [hstep, if_neg (by simp)]
      have h1 : ((a :: b :: P3) ++ x :: Q).tail ++ [(((a :: b :: P3) ++ x :: Q).headI.1, rank_new)]
          = (b :: P3) ++ x :: (Q ++ [(a.1, rank_new)]) := by
        simp
      rw [h1, ih (by simp) (Q ++ [(a.1, rank_new)]) x]
      simp

/-- A buildIncrLoop whose guard fails at entry returns its input. -/
lemma buildIncrLoop_done {α : Type} [Zero α] (rnd : Nat → α)
    (als : List (Tensor α) → List (Tensor α)) (rank fuel : Nat)
    (A : List (Tensor α)) (h : ¬ A.headI.cols < rank) :
    buildIncrLoop rnd als rank fuel A = A := by
  cases fuel with
  | zero => rfl
  | succ f =>
    unfold buildIncrLoop
    rw [if_neg h]

/-- Shapes after CP_ALS::build with the SVD initial guess at SVD_rank, for
a target rank at most SVD_rank (the incremental loop does not fire). -/
lemma shapes_CP_ALS_build {α : Type} [Zero α] (dims : List Nat)
    (rank SVD_rank : Nat) (content : Nat → Nat → α) (rnd : Nat → α)
    (nc als : List (Tensor α) → List (Tensor α))
    (Hnc : ∀ S, shapes (nc S) = shapes S)
    (Hals : ∀ S, shapes (als S) = shapes S)
    (hne : dims ≠ []) (hrank : rank ≤ SVD_rank) :
    shapes (CP_ALS_build dims rank SVD_rank content rnd nc als) =
      dims.map (fun r => (r, SVD_rank)) ++ [(SVD_rank, 1)] := by
  unfold CP_ALS_build
  have hB : shapes (als (nc (svdGuessFactors dims SVD_rank content ++ [lamZeros SVD_rank])))
      = dims.map (fun r => (r, SVD_rank)) ++ [(SVD_rank, 1)] := by
    rw [Hals, Hnc, shapes_append, shapes_svdGuessFactors]
    rfl
  have hcols : (als (nc (svdGuessFactors dims SVD_rank content
      ++ [lamZeros SVD_rank]))).headI.cols = SVD_rank := by
    have h1 := headI_shapes (als (nc (svdGuessFactors dims SVD_rank content
      ++ [lamZeros SVD_rank])))
    rw [hB, headI_map_append dims _ _ hne] at h1
    have h2 : ((als (nc (svdGuessFactors dims SVD_rank content
        ++ [lamZeros SVD_rank]))).headI.shape).2 = SVD_rank := by
      rw [← h1]
    exact h2
  rw [buildIncrLoop_done _ _ _ _ _ (by rw [hcols]; omega)]
  exact hB

/-- C6: compute_PALS with panels = 2 and RankStep = 1/2 on a reference
tensor with maximum mode extent 6, with shape-preserving normCol and ALS:
panel 0 builds every factor matrix with exactly 6 columns via the SVD
initial guess at SVD_rank = 6 (the result of the panels = 1 prefix of the
panel loop), panel 1 grows the rank to
floor(6 + 0.5 * 6) = 9, and the resulting factor matrices have exactly 9
columns (with the weight vector of length 9). -/
theorem C6_PALS_panel_growth {α : Type} [Zero α] (dims : List Nat)
    (ntests : Nat) (content : Nat → Nat → α) (rnd : Nat → α)
    (nc als : List (Tensor α) → List (Tensor α))
    (Hnc : ∀ S, shapes (nc S) = shapes S)
    (Hals : ∀ S, shapes (als S) = shapes S)
    (hmax : maxExtent dims = 6) (hne : dims ≠ []) (htests : 2 ≤ ntests) :
    (CP_ALS_compute_PALS dims (1 / 2) 1 ntests content rnd nc als).map shapes
      = .ok (dims.map (fun r => (r, 6)) ++ [(6, 1)]) ∧
    (CP_ALS_compute_PALS dims (1 / 2) 2 ntests content rnd nc als).map shapes
      = .ok (dims.map (fun r => (r, 9)) ++ [(9, 1)]) := by
  have hstep : ¬ ((1 : ℚ) / 2 ≤ 0) := by norm_num
  have hA0 : shapes (CP_ALS_build dims (maxExtent dims) (maxExtent dims)
      content rnd nc als) = dims.map (fun r => (r, 6)) ++ [(6, 1)] := by
    rw [shapes_CP_ALS_build dims _ _ content rnd nc als Hnc Hals hne le_rfl, hmax]
  have hA0cols : (CP_ALS_build dims (maxExtent dims) (maxExtent dims)
      content rnd nc als).headI.cols = 6 := by
    have h1 := headI_shapes (CP_ALS_build dims (maxExtent dims) (maxExtent dims)
      content rnd nc als)
    rw [hA0, headI_map_append dims _ _ hne] at h1
    have h2 : ((CP_ALS_build dims (maxExtent dims) (maxExtent dims)
        content rnd nc als).headI.shape).2 = 6 := by rw [← h1]
    exact h2
  have hA0len : (CP_ALS_build dims (maxExtent dims) (maxExtent dims)
      content rnd nc als).length = dims.length + 1 := by
    have h1 : (shapes (CP_ALS_build dims (maxExtent dims) (maxExtent dims)
        content rnd nc als)).length = dims.length + 1 := by
      rw [hA0]; simp
    unfold shapes at h1
    rw [List.length_map] at h1
    exact h1
  constructor
  · unfold CP_ALS_compute_PALS
    rw [if_neg hstep, if_neg (by omega)]
    show Except.ok (shapes (CP_ALS_compute_PALS_work dims (1 / 2) 1 content rnd nc als)) = _
    rw [show CP_ALS_compute_PALS_work dims (1 / 2) 1 content rnd nc als
        = CP_ALS_build dims (maxExtent dims) (maxExtent dims) content rnd nc als from rfl]
    rw [hA0]
  · unfold CP_ALS_compute_PALS
    rw [if_neg hstep, if_neg (by omega)]
    show Except.ok (shapes (CP_ALS_compute_PALS_work dims (1 / 2) 2 content rnd nc als)) = _
    have hrank9 : ((((CP_ALS_build dims (maxExtent dims) (maxExtent dims)
        content rnd nc als).headI.cols : ℚ) + 1 / 2 * ((maxExtent dims : Nat) : ℚ)).floor).toNat = 9 := by
      rw [hA0cols, hmax]
      have h9 : (((6 : Nat) : ℚ) + 1 / 2 * ((6 : Nat) : ℚ)) = 9 := by
        push_cast
        norm_num
      rw [h9, Rat.floor_def']
      norm_num
      rfl
    rw [show CP_ALS_compute_PALS_work dims (1 / 2) 2 content rnd nc als
        = als (palsGrowAux ((((CP_ALS_build dims (maxExtent dims) (maxExtent dims)
            content rnd nc als).headI.cols : ℚ)
            + 1 / 2 * ((maxExtent dims : Nat) : ℚ)).floor).toNat rnd nc
          ((CP_ALS_build dims (maxExtent dims) (maxExtent dims)
            content rnd nc als).length - 1)
          (CP_ALS_build dims (maxExtent dims) (maxExtent dims)
            content rnd nc als)) from rfl]
    rw [hrank9, hA0len, Hals, shapes_palsGrowAux 9 rnd nc Hnc (dims.length + 1 - 1) _, hA0]
    have hlen2 : dims.length + 1 - 1 = (dims.map (fun r => (r, 6))).length := by
      simp
    rw [hlen2, palsShapeAux_spec 9 (dims.map (fun r => (r, 6)))
      (by simp only [List.length_map]; exact List.length_pos.mpr hne) [] (6, 1)]
    rw [List.map_map]
    simp

/-- Witness for C6 at a concrete input: dims = [4, 5, 6], identity normCol
and ALS, zero eigen content and draws, two convergence tests. -/
theorem C6_PALS_panel_growth_witness :
    maxExtent [4, 5, 6] = 6 ∧
    (CP_ALS_compute_PALS [4, 5, 6] (1 / 2) 2 2 (fun _ _ => (0 : ℤ)) (fun _ => 0)
        id id).map shapes = .ok [(4, 9), (5, 9), (6, 9), (9, 1)] := by
  refine ⟨by decide, ?_⟩
  have h := (C6_PALS_panel_growth [4, 5, 6] 2 (fun _ _ => (0 : ℤ)) (fun _ => 0)
    id id (fun _ => rfl) (fun _ => rfl) (by decide) (by decide) (by decide)).2
  simpa using h

end btas
